import Mathlib

/-
Verification development for the hyswap hydrologic-statistics library.

The repository computes percentile thresholds, metadata summaries, and
runoff conversions from time-indexed streamflow observations.  This file
gives a shallow embedding of the relevant functions over exact rationals
(`ℚ`): missing values (NaN / NaT) are modelled by `Option`, raised Python
exceptions by `Except String`, and the numpy / pandas primitives the code
delegates to (`np.percentile`, `np.nanpercentile`, `np.interp`, pandas
index reductions) are embedded following their documented and implemented
semantics.
-/

set_option maxRecDepth 10000


/-! ## numpy quantile machinery

`np.percentile(data, q, method=m)` computes a virtual index
`i = (q/100)·(n+1) − 1` for `method='weibull'` (plotting-position
`alpha = beta = 0`) or `i = (q/100)·(n−1)` for `method='linear'`, and then
linearly interpolates the sorted data at `i`, clamping to the first / last
element when `i` is out of bounds (numpy `_get_indexes` / `_lerp`). -/

inductive QMethod where
  | weibull
  | linear
deriving DecidableEq, Repr

def virtualIndex (m : QMethod) (n : ℕ) (q : ℚ) : ℚ :=
  match m with
  | .weibull => q / 100 * ((n : ℚ) + 1) - 1
  | .linear => q / 100 * ((n : ℚ) - 1)

/-- Linear interpolation of a sorted array at a (rational) virtual index,
with numpy's clamping behaviour: indices at or above `n - 1` give the last
element, negative indices give the first element. -/
def interpSorted (a : List ℚ) (i : ℚ) : ℚ :=
  if (a.length : ℚ) - 1 ≤ i then a.getLastD 0
  else if i < 0 then a.headD 0
  else
    let k := ⌊i⌋.toNat
    a.getD k 0 + (i - (k : ℚ)) * (a.getD (k + 1) 0 - a.getD k 0)

/-- numpy percentile of a (NaN-free) sample: sort, then interpolate at the
method's virtual index. -/
def npQuantile (m : QMethod) (a : List ℚ) (q : ℚ) : ℚ :=
  interpSorted (a.insertionSort (· ≤ ·)) (virtualIndex m a.length q)

/-- A row of missing-value sentinels, one per requested percentile. -/
def nanRow (ps : List ℚ) : List (Option ℚ) := ps.map fun _ => none

/-- Embedding of `calculate_fixed_percentile_thresholds` (percentiles.py).
`ignoreNa = true` is the `np.nanpercentile` path: NaN values are dropped,
and an empty (or all-NaN) sample yields a row of NaN with a warning rather
than an error.  `ignoreNa = false` is the `np.percentile` path: an empty
sample raises, and a sample containing NaN yields all-NaN results.  Both
paths reject percentile ranks outside `[0, 100]` with a `ValueError`.
The returned row pairs each requested percentile with its threshold. -/
def calculate_fixed_percentile_thresholds (data : List (Option ℚ)) (ps : List ℚ)
    (m : QMethod) (ignoreNa : Bool) : Except String (List (Option ℚ)) :=
  if ps.any fun q => decide (q < 0) || decide (100 < q) then
    .error "Percentiles must be in the range [0, 100]"
  else if ignoreNa then
    let clean := data.filterMap id
    if clean.isEmpty then .ok (nanRow ps)
    else .ok (ps.map fun q => some (npQuantile m clean q))
  else
    if data.isEmpty then .error "cannot do a non-empty take from an empty axes"
    else if data.any fun v => v.isNone then .ok (nanRow ps)
    else .ok (ps.map fun q => some (npQuantile m (data.filterMap id) q))

/-! ## numpy `np.interp`

`np.interp(x, xp, fp)` (C routine `arr_interp`): for `x` below `xp[0]` it
returns `fp[0]`, above `xp[last]` it returns `fp[last]` (the default
`left` / `right` values — no extrapolation); otherwise it finds, by binary
search on the increasing array `xp`, the largest `j` with `xp[j] ≤ x`
(modelled for sorted `xp` as `count {v ∈ xp | v ≤ x} - 1`) and linearly
interpolates between `(xp[j], fp[j])` and `(xp[j+1], fp[j+1])`, returning
`fp[j]` directly when `j` is the last index or `xp[j] = x`. -/
def npInterp (x : ℚ) (xp fp : List ℚ) : ℚ :=
  if xp.isEmpty then 0
  else if x < xp.headD 0 then fp.headD 0
  else if xp.getLastD 0 < x then fp.getLastD 0
  else
    let j := xp.countP (fun v => decide (v ≤ x)) - 1
    if j = xp.length - 1 then fp.getLastD 0
    else if xp.getD j 0 = x then fp.getD j 0
    else
      fp.getD j 0 +
        (fp.getD (j + 1) 0 - fp.getD j 0) / (xp.getD (j + 1) 0 - xp.getD j 0) *
          (x - xp.getD j 0)

/-- The one-row DataFrame produced by `calculate_fixed_percentile_thresholds`:
column labels are the percentile ranks, the single "values" row holds the
thresholds. -/
structure PercDF where
  thresholds : List ℚ
  rowValues : List ℚ
deriving DecidableEq, Repr

/-- Embedding of `calculate_percentile_from_value` (percentiles.py):
`np.interp(value, percentile_values, thresholds)` where `thresholds` are
the column labels (percentile ranks) and `percentile_values` the stored
row of threshold values. -/
def calculate_percentile_from_value (value : ℚ) (pdf : PercDF) : ℚ :=
  npInterp value pdf.rowValues pdf.thresholds

/-! ## Dates and the metadata summary (`utils.py`)

A pandas `DatetimeIndex` entry is modelled as a proleptic-Gregorian
calendar date; a series is a list of (date, value) pairs where `none`
models NaN. -/

structure HDate where
  year : ℕ
  month : ℕ
  day : ℕ
deriving DecidableEq, Repr

abbrev Series := List (HDate × Option ℚ)

def isLeap (y : ℕ) : Bool := y % 4 == 0 && (y % 100 != 0 || y % 400 == 0)

def monthLengths : List ℕ := [31, 28, 31, 30, 31, 30, 31, 31, 30, 31, 30, 31]

def monthLen (leap : Bool) (m : ℕ) : ℕ :=
  if leap && m == 2 then 29 else monthLengths.getD (m - 1) 0

def daysBeforeMonth (leap : Bool) (m : ℕ) : ℕ :=
  ((List.range (m - 1)).map fun i => monthLen leap (i + 1)).sum

/-- pandas `index.dayofyear`: the 1-based ordinal of a date within its
calendar year, counting Feb 29 in leap years (so Dec 31 is 366 there). -/
def rawDoy (d : HDate) : ℕ := daysBeforeMonth (isLeap d.year) d.month + d.day

def leapsBefore (y : ℕ) : ℕ := (y - 1) / 4 - (y - 1) / 100 + (y - 1) / 400

/-- Absolute proleptic-Gregorian day number, used for chronological
ordering and day-difference arithmetic on timestamps. -/
def absDay (d : HDate) : ℕ := 365 * (d.year - 1) + leapsBefore d.year + rawDoy d

/-- pandas `index.min()`: earliest timestamp, `NaT` (`none`) on an empty
index. -/
def dateMin : Series → Option HDate
  | [] => none
  | e :: rest =>
    some (rest.foldl (fun acc f => if absDay f.1 < absDay acc then f.1 else acc) e.1)

/-- pandas `index.max()`: latest timestamp, `NaT` (`none`) on an empty
index. -/
def dateMax : Series → Option HDate
  | [] => none
  | e :: rest =>
    some (rest.foldl (fun acc f => if absDay acc < absDay f.1 then f.1 else acc) e.1)

/-- The dictionary produced by `calculate_metadata` (utils.py).  `n_gaps`
is an `Option`: pandas `Index.max()` / `Index.min()` return the NA
sentinel on an empty index, so the year-gap arithmetic yields NaN there.
`start_date` / `end_date` are `none` for pandas `NaT`. -/
structure HMeta where
  n_years : ℕ
  n_data : ℕ
  n_gaps : Option ℤ
  start_date : Option HDate
  end_date : Option HDate
  n_zeros : ℕ
  n_nans : ℕ
  n_lows : ℕ
deriving DecidableEq, Repr

/-- Embedding of `calculate_metadata` (utils.py).  `n_years` is
`len(data.index.year.unique())`; `expected_years` is
`max year − min year + 1` (NaN on an empty index, since pandas index
reductions return the NA sentinel there); `n_gaps = expected_years −
n_years`; `n_zeros`, `n_nans`, `n_lows` count values `= 0`, missing, and
`≤ 0.01` (NaN compares false in pandas, so missing values are not low). -/
def calculate_metadata (data : Series) : HMeta :=
  let years : List ℕ := data.map fun e => e.1.year
  let nYears := years.dedup.length
  { n_years := nYears
    n_data := data.length
    n_gaps :=
      years.max?.bind fun (mx : ℕ) =>
        years.min?.map fun (mn : ℕ) => (mx : ℤ) - (mn : ℤ) + 1 - (nYears : ℤ)
    start_date := dateMin data
    end_date := dateMax data
    n_zeros := data.countP fun e => e.2 == some 0
    n_nans := data.countP fun e => e.2 == none
    n_lows := data.countP fun e =>
      match e.2 with
      | some v => decide (v ≤ 1 / 100)
      | none => false }

/-- The 4-point one-per-year series from the repository's
`test_calculate_metadata`, and the same series with its second point
removed. -/
def sampleSeries4 : Series :=
  [(⟨2019, 12, 31⟩, some 1), (⟨2020, 12, 31⟩, some 2),
   (⟨2021, 12, 31⟩, some 3), (⟨2022, 12, 31⟩, some 4)]

def sampleSeries3 : Series :=
  [(⟨2019, 12, 31⟩, some 1), (⟨2021, 12, 31⟩, some 3), (⟨2022, 12, 31⟩, some 4)]

/-! ## Runoff conversion (`runoff.py`) -/

/-- `cfs → runoff` frequency factor: days per reporting period; an
unrecognized frequency string raises `ValueError`. -/
def freqDays (frequency : String) : Except String ℚ :=
  if frequency = "annual" then .ok 365.25
  else if frequency = "monthly" then .ok (365.25 / 12)
  else if frequency = "daily" then .ok 1
  else .error ("Invalid frequency: " ++ frequency)

/-- Embedding of `convert_cfs_to_runoff`: seconds per period × cubic-feet
→ cubic-metres (0.3048³) × area normalization (km² → m²) × m → mm. -/
def convert_cfs_to_runoff (cfs : ℚ) (drainageArea : ℚ) (frequency : String) :
    Except String ℚ :=
  (freqDays frequency).map fun freq =>
    let cpy := cfs * 60 * 60 * 24 * freq
    let cpy2 := cpy * (0.3048 : ℚ) ^ 3
    let da := drainageArea * 1000 * 1000
    cpy2 / da * 1000

/-- A pandas DataFrame for the frame-effect claim: an ordered association
of column names to value columns. -/
abbrev PyDF := List (String × List ℚ)

def getCol (df : PyDF) (name : String) : List ℚ :=
  ((df.find? fun c => c.1 = name).map fun c => c.2).getD []

/-- `df[name] = vs`: replace the column in place when it exists, else
append a new column. -/
def setCol (df : PyDF) (name : String) (vs : List ℚ) : PyDF :=
  if df.any fun c => c.1 = name then
    df.map fun c => if c.1 = name then (c.1, vs) else c
  else df ++ [(name, vs)]

/-- The Python heap: DataFrame objects live in a store addressed by
references, so that `df['runoff'] = ...` mutating the caller's object is
observable. -/
abbrev Store := List PyDF

/-- Embedding of `streamflow_to_runoff` as a store transformer: the
DataFrame argument is a reference into the store; the function converts
the data column per row, writes the result into the `'runoff'` column of
that same object, and returns the same reference. -/
def streamflow_to_runoff (σ : Store) (r : ℕ) (dataCol : String)
    (drainageArea : ℚ) (frequency : String) : Except String (Store × ℕ) :=
  let df := σ.getD r []
  ((getCol df dataCol).mapM fun x => convert_cfs_to_runoff x drainageArea frequency).map
    fun vs => (σ.set r (setCol df "runoff" vs), r)

/-! ## Area-weighted geometric runoff (`calculate_geometric_runoff`) -/

/-- A per-site runoff DataFrame: the NWIS site number (already converted
to int) and the (timestamp, runoff) rows; `none` models NaN. -/
structure SiteDF where
  site : ℕ
  rows : List (ℕ × Option ℚ)
deriving DecidableEq, Repr

/-- One geometry's column of the weights matrix: site id → area weight,
`none` modelling a missing (NaN) weight. -/
abbrev WeightsCol := List (ℕ × Option ℚ)

def wLookup (w : WeightsCol) (s : ℕ) : Option ℚ :=
  ((w.find? fun p => p.1 = s).map fun p => p.2).getD none

def dfValue (df : SiteDF) (t : ℕ) : Option ℚ :=
  ((df.rows.find? fun p => p.1 = t).map fun p => p.2).getD none

/-- `_get_date_range` with default start/end: earliest first timestamp to
latest last timestamp across the dataframes. -/
def dateRange (dfs : List SiteDF) : List ℕ :=
  match dfs with
  | [] => []
  | d :: rest =>
    let start := rest.foldl (fun acc df => min acc (df.rows.headD (0, none)).1)
      (d.rows.headD (0, none)).1
    let stop := rest.foldl (fun acc df => max acc (df.rows.getLastD (0, none)).1)
      (d.rows.getLastD (0, none)).1
    List.range' start (stop + 1 - start)

/-- The row of the populated `runoff_df` belonging to a site: the loop
writes each dataframe's weighted series at its site label, so the last
dataframe with that site id wins; sites never written keep their NaN
initialization. -/
def siteRowDF (dfs : List SiteDF) (s : ℕ) : Option SiteDF :=
  (dfs.filter fun df => df.site = s).getLast?

/-- The (site, date) cell of the populated `runoff_df`: weight × runoff
with NaN propagation (a missing weight or missing value makes the cell
NaN), NaN when the site's row was never populated. -/
def weightedCell (dfs : List SiteDF) (w : WeightsCol) (s : ℕ) (t : ℕ) : Option ℚ :=
  match siteRowDF dfs s with
  | none => none
  | some df => (wLookup w s).bind fun wt => (dfValue df t).map fun v => wt * v

/-- pandas `sum(skipna=True)`: missing cells contribute nothing, and an
all-NaN collection sums to 0. -/
def skipnaSum (cells : List (Option ℚ)) : ℚ :=
  (cells.filterMap id).sum

/-- Embedding of `calculate_geometric_runoff` (runoff.py) for one
geometry's weight column: errors model `df_list[0]` on an empty list,
`df['site_no'][0]` on an empty frame, and the `.loc` KeyError for a site
absent from the weights index; otherwise, for each date in the range, sum
the weighted cells over the weights-matrix site list (skipping NaN) and
divide by the skipna sum of the weights column. -/
def calculate_geometric_runoff (dfs : List SiteDF) (w : WeightsCol) :
    Except String (List (ℕ × ℚ)) :=
  if dfs.isEmpty then .error "list index out of range"
  else if dfs.any fun df => df.rows.isEmpty then .error "index 0 is out of bounds"
  else if dfs.any fun df => (w.find? fun p => p.1 = df.site).isNone then .error "KeyError"
  else
    let dr := dateRange dfs
    let wsum := skipnaSum (w.map fun p => p.2)
    .ok (dr.map fun t => (t, skipnaSum (w.map fun p => weightedCell dfs w p.1 t) / wsum))

/-! ## Calendar adjustment, temporal windowing, and the variable
percentile engine (`calculate_variable_percentile_thresholds_by_day`)

`define_year_doy_columns`, `set_data_type` and `filter_data_by_time` are
imported by percentiles.py but are not part of src/; they are modelled
from the spec (§4.1 Calendar Adjustment, §4.2 Temporal Windowing). -/

inductive YearType where
  | calendar
  | water
  | climate
deriving DecidableEq, Repr

/-- Modelled from the spec: the day-of-year ordinal (1..365) of the
Calendar Adjustment (§4.1), `define_year_doy_columns` being absent from
src/.  Feb 29 is clipped out of the ordinal scheme, so dates after it in
leap years shift down by one. -/
def doy365 (d : HDate) : ℕ :=
  if isLeap d.year && decide (rawDoy d > 60) then rawDoy d - 1 else rawDoy d

/-- Modelled from the spec: the ordinal within the year-type cycle —
water years start Oct 1 (calendar ordinal 274 → 1), climate years Apr 1
(calendar ordinal 91 → 1). -/
def doyOfYearType (yt : YearType) (d : HDate) : ℕ :=
  match yt with
  | .calendar => doy365 d
  | .water => if 274 ≤ doy365 d then doy365 d - 273 else doy365 d + 92
  | .climate => if 91 ≤ doy365 d then doy365 d - 90 else doy365 d + 275

def isFeb29 (d : HDate) : Bool := d.month == 2 && d.day == 29

/-- Modelled from the spec: the `clip_leap_day=True` step of
`define_year_doy_columns` drops Feb 29 rows. -/
def clipLeapDay (df : Series) : Series := df.filter fun e => !isFeb29 e.1

/-- Modelled from the spec: `set_data_type` (absent from src/) maps the
`data_type` argument to a pandas rolling window ('daily' → '1D', 'N-day'
→ 'ND'), failing on anything else. -/
def set_data_type (dataType : String) : Except String ℕ :=
  if dataType = "daily" then .ok 1
  else if dataType = "7-day" then .ok 7
  else if dataType = "14-day" then .ok 14
  else if dataType = "28-day" then .ok 28
  else .error ("Invalid data type: " ++ dataType)

/-- pandas trailing time-offset rolling mean with the default
`min_periods = 1`: the value at timestamp `t` is the mean of the non-NaN
values in the window `(t − w, t]`, NaN when the window holds none. -/
def windowMean (df : Series) (t : HDate) (w : ℕ) : Option ℚ :=
  let vals := (df.filter fun e =>
    decide (absDay t - w < absDay e.1) && decide (absDay e.1 ≤ absDay t)).filterMap
    fun e => e.2
  if vals.isEmpty then none else some (vals.sum / vals.length)

/-- Embedding of `rolling_average` (utils.py): each row is replaced by
its trailing-window mean over the data column. -/
def rolling_average (df : Series) (w : ℕ) : Series :=
  df.map fun e => (e.1, windowMean df e.1 w)

/-- Modelled from the spec: `filter_data_by_time` (§4.2 Temporal
Windowing, absent from src/) — the sub-series of the calendar-labelled
data whose day-of-year falls within `[doy − leading, doy + trailing]`,
with missing values dropped when `drop_na` is set. -/
def filter_data_by_time (df : Series) (yt : YearType) (doy : ℕ)
    (leading trailing : ℕ) (dropNa : Bool) : Series :=
  let sel := df.filter fun e =>
    decide (doy - leading ≤ doyOfYearType yt e.1) &&
      decide (doyOfYearType yt e.1 ≤ doy + trailing)
  if dropNa then sel.filter fun e => e.2.isSome else sel

/-- The per-day body of the engine loop (percentiles.py lines 185-205):
build the day's sample, compute its metadata, and either compute the
fixed thresholds (when `n_years ≥ min_years`) or emit a full row of NaN
sentinels. -/
def rowForDoy (df : Series) (yt : YearType) (ps : List ℚ) (m : QMethod)
    (minYears : ℕ) (leading trailing : ℕ) (ignoreNa : Bool) (doy : ℕ) :
    Except String (List (Option ℚ)) :=
  let data := filter_data_by_time df yt doy leading trailing ignoreNa
  if minYears ≤ (calculate_metadata data).n_years then
    calculate_fixed_percentile_thresholds (data.map fun e => e.2) ps m ignoreNa
  else
    .ok (nanRow ps)

/-- The observed day-of-year range `np.arange(min_day, max_day)` with
`min_day = np.nanmax((1, index.dayofyear.min()))` and
`max_day = np.nanmin((366, index.dayofyear.max() + 1))`; on an empty
index the pandas reductions give NaN, which the numpy nan-reductions
ignore, leaving the clamps 1 and 366. -/
def doyRange (df : Series) : List ℕ :=
  let minDay := if df.isEmpty then 1 else max 1 ((df.map fun e => rawDoy e.1).min?.getD 1)
  let maxDay :=
    if df.isEmpty then 366 else min 366 (((df.map fun e => rawDoy e.1).max?.getD 0) + 1)
  List.range' minDay (maxDay - minDay)

/-- The Python loop over days of year: each day's row is computed in
order, any exception propagating to the caller. -/
def buildRows (f : ℕ → Except String (List (Option ℚ))) :
    List ℕ → Except String (List (ℕ × List (Option ℚ)))
  | [] => .ok []
  | d :: rest => (f d).bind fun r => (buildRows f rest).map fun t => (d, r) :: t

/-- The month-day label `pd.to_datetime(doy, format='%j').strftime('%m-%d')`:
the day-of-year interpreted in the (non-leap) year 1900. -/
def mdOfDoyAux : ℕ → ℕ → List ℕ → ℕ × ℕ
  | m, n, [] => (m, n)
  | m, n, len :: rest => if n ≤ len then (m, n) else mdOfDoyAux (m + 1) (n - len) rest

def mdOfDoy (n : ℕ) : ℕ × ℕ := mdOfDoyAux 1 n monthLengths

/-- The post-processing index remap (percentiles.py lines 212-218): shift
the raw ordinal by the year-type's cycle-start offset, adding 365
whenever the shifted value is `< 1`. -/
def relDoy (yt : YearType) (d : ℤ) : ℤ :=
  match yt with
  | .calendar => d
  | .water => if d - 273 < 1 then d - 273 + 365 else d - 273
  | .climate => if d - 90 < 1 then d - 90 + 365 else d - 90

/-- Re-index the table by the composite (relative day-of-year, month-day)
key and sort by it (pandas `sort_index` on the MultiIndex, lines
219-223). -/
def postprocess (yt : YearType) (tbl : List (ℕ × List (Option ℚ))) :
    List ((ℤ ×ₗ (ℕ ×ₗ ℕ)) × List (Option ℚ)) :=
  (tbl.map fun p => (toLex (relDoy yt (p.1 : ℤ), toLex (mdOfDoy p.1)), p.2)).insertionSort
    fun a b => a.1 ≤ b.1

instance : IsTotal ((ℤ ×ₗ (ℕ ×ₗ ℕ)) × List (Option ℚ)) (fun a b => a.1 ≤ b.1) :=
  ⟨fun a b => le_total a.1 b.1⟩

instance : IsTrans ((ℤ ×ₗ (ℕ ×ₗ ℕ)) × List (Option ℚ)) (fun a b => a.1 ≤ b.1) :=
  ⟨fun _ _ _ hab hbc => le_trans hab hbc⟩

/-- Embedding of `calculate_variable_percentile_thresholds_by_day`
(percentiles.py): calendar-label and clip the frame, apply the rolling
average, loop over the observed day-of-year range gating each day on
`min_years`, then re-index and sort. -/
def calculate_variable_percentile_thresholds_by_day (df : Series)
    (ps : List ℚ) (m : QMethod) (dataType : String) (yt : YearType)
    (minYears : ℕ) (leading trailing : ℕ) (ignoreNa : Bool) :
    Except String (List ((ℤ ×ₗ (ℕ ×ₗ ℕ)) × List (Option ℚ))) :=
  (set_data_type dataType).bind fun w =>
    let df2 := rolling_average (clipLeapDay df) w
    (buildRows (rowForDoy df2 yt ps m minYears leading trailing ignoreNa)
      (doyRange df2)).map fun tbl => postprocess yt tbl

/-! ## C5: the relative day-of-year remap and row sorting -/

/-- The cycle-start offset of the spec's remap arithmetic. -/
def relDoyShift (yt : YearType) : ℤ :=
  match yt with
  | .calendar => 0
  | .water => 273
  | .climate => 90

/-- The amended claim's arithmetic: shift the raw ordinal by the
cycle-start offset and add 365 whenever the shifted result is less than 1
(zero or negative — not only negative). -/
def relDoySpec (yt : YearType) (d : ℤ) : ℤ :=
  match yt with
  | .calendar => d - relDoyShift yt
  | .water =>
    if d - relDoyShift yt < 1 then d - relDoyShift yt + 365 else d - relDoyShift yt
  | .climate =>
    if d - relDoyShift yt < 1 then d - relDoyShift yt + 365 else d - relDoyShift yt

example : npQuantile .linear [(0 : ℚ), 1, 2, 3, 4] 50 = 2 := by
  norm_num [npQuantile, interpSorted, virtualIndex, List.insertionSort, List.orderedInsert,
    Int.toNat]

example : npQuantile .weibull [(0 : ℚ), 1, 2, 3] 50 = 3/2 := by
  norm_num [npQuantile, interpSorted, virtualIndex, List.insertionSort, List.orderedInsert,
    Int.toNat]

example : npQuantile .weibull [(0 : ℚ), 1, 2, 3] 100 = 3 := by
  norm_num [npQuantile, interpSorted, virtualIndex, List.insertionSort, List.orderedInsert,
    Int.toNat]

example : npQuantile .weibull [(0 : ℚ), 1, 2, 3] 0 = 0 := by
  norm_num [npQuantile, interpSorted, virtualIndex, List.insertionSort, List.orderedInsert,
    Int.toNat]

example : npInterp 51 [(0 : ℚ), 50, 100] [0, 50, 100] = 51 := by
  norm_num [npInterp, List.countP, List.countP.go]

example : npInterp (-10) [(0 : ℚ), 50, 100] [0, 50, 100] = 0 := by
  norm_num [npInterp, List.countP, List.countP.go]

example : npInterp 1 [(1 : ℚ), 1, 1] [0, 50, 100] = 100 := by
  norm_num [npInterp, List.countP, List.countP.go]

example : (calculate_metadata sampleSeries4).n_years = 4 := by decide

example : (calculate_metadata sampleSeries4).n_gaps = some 0 := by decide

example : (calculate_metadata sampleSeries3).n_gaps = some 1 := by decide

/-! ## Monotonicity of the quantile interpolation -/

theorem getD_le_getD_of_sorted (a : List ℚ) (ha : a.Sorted (· ≤ ·)) {i j : ℕ}
    (hij : i ≤ j) (hj : j < a.length) : a.getD i 0 ≤ a.getD j 0 := by
  rcases Nat.lt_or_ge i j with hlt | hge
  · have hi : i < a.length := lt_trans hlt hj
    rw [List.getD_eq_getElem?_getD, List.getD_eq_getElem?_getD,
      List.getElem?_eq_getElem hi, List.getElem?_eq_getElem hj]
    exact List.pairwise_iff_getElem.mp ha i j hi hj hlt
  · have heq : i = j := le_antisymm hij hge
    subst heq
    exact le_refl _

theorem headD_eq_getD (a : List ℚ) : a.headD 0 = a.getD 0 0 := by
  cases a <;> rfl

theorem getLastD_eq_getD (a : List ℚ) : a.getLastD 0 = a.getD (a.length - 1) 0 := by
  rw [List.getLastD_eq_getLast?, List.getLast?_eq_getElem?, List.getD_eq_getElem?_getD]

theorem interpSorted_nil (i : ℚ) : interpSorted [] i = 0 := by
  unfold interpSorted
  split_ifs <;> simp

theorem interpSorted_middle (a : List ℚ) (i : ℚ)
    (h0 : 0 ≤ i) (htop : i < (a.length : ℚ) - 1) :
    interpSorted a i =
      a.getD ⌊i⌋.toNat 0 +
        (i - (⌊i⌋.toNat : ℚ)) * (a.getD (⌊i⌋.toNat + 1) 0 - a.getD ⌊i⌋.toNat 0) := by
  unfold interpSorted
  rw [if_neg (not_le.mpr htop), if_neg (not_lt.mpr h0)]

theorem floor_toNat_le (i : ℚ) (h0 : 0 ≤ i) : ((⌊i⌋.toNat : ℕ) : ℚ) ≤ i := by
  have hnn : 0 ≤ ⌊i⌋ := Int.floor_nonneg.mpr h0
  have hcast : ((⌊i⌋.toNat : ℕ) : ℚ) = ((⌊i⌋ : ℤ) : ℚ) := by
    have h2 : ((⌊i⌋.toNat : ℕ) : ℤ) = ⌊i⌋ := Int.toNat_of_nonneg hnn
    exact_mod_cast congrArg (fun z : ℤ => (z : ℚ)) h2
  rw [hcast]
  exact Int.floor_le i

theorem lt_floor_toNat_add_one (i : ℚ) (h0 : 0 ≤ i) : i < (⌊i⌋.toNat : ℚ) + 1 := by
  have hnn : 0 ≤ ⌊i⌋ := Int.floor_nonneg.mpr h0
  have hcast : ((⌊i⌋.toNat : ℕ) : ℚ) = ((⌊i⌋ : ℤ) : ℚ) := by
    have h2 : ((⌊i⌋.toNat : ℕ) : ℤ) = ⌊i⌋ := Int.toNat_of_nonneg hnn
    exact_mod_cast congrArg (fun z : ℤ => (z : ℚ)) h2
  rw [hcast]
  exact Int.lt_floor_add_one i

theorem floor_toNat_add_one_lt_length (a : List ℚ) (i : ℚ)
    (h0 : 0 ≤ i) (htop : i < (a.length : ℚ) - 1) : ⌊i⌋.toNat + 1 < a.length := by
  have h1 : ((⌊i⌋.toNat : ℕ) : ℚ) ≤ i := floor_toNat_le i h0
  have h2 : ((⌊i⌋.toNat : ℕ) : ℚ) < (a.length : ℚ) - 1 := lt_of_le_of_lt h1 htop
  have h3 : ((⌊i⌋.toNat : ℕ) : ℚ) + 1 < (a.length : ℚ) := by linarith
  exact_mod_cast h3

theorem interpSorted_middle_lb (a : List ℚ) (ha : a.Sorted (· ≤ ·)) (i : ℚ)
    (h0 : 0 ≤ i) (htop : i < (a.length : ℚ) - 1) :
    a.getD ⌊i⌋.toNat 0 ≤ interpSorted a i := by
  rw [interpSorted_middle a i h0 htop]
  have hk1 : ⌊i⌋.toNat + 1 < a.length := floor_toNat_add_one_lt_length a i h0 htop
  have hd : a.getD ⌊i⌋.toNat 0 ≤ a.getD (⌊i⌋.toNat + 1) 0 :=
    getD_le_getD_of_sorted a ha (Nat.le_succ _) hk1
  have hg : 0 ≤ i - (⌊i⌋.toNat : ℚ) := sub_nonneg.mpr (floor_toNat_le i h0)
  nlinarith [mul_nonneg hg (sub_nonneg.mpr hd)]

theorem interpSorted_middle_ub (a : List ℚ) (ha : a.Sorted (· ≤ ·)) (i : ℚ)
    (h0 : 0 ≤ i) (htop : i < (a.length : ℚ) - 1) :
    interpSorted a i ≤ a.getD (⌊i⌋.toNat + 1) 0 := by
  rw [interpSorted_middle a i h0 htop]
  have hk1 : ⌊i⌋.toNat + 1 < a.length := floor_toNat_add_one_lt_length a i h0 htop
  have hd : a.getD ⌊i⌋.toNat 0 ≤ a.getD (⌊i⌋.toNat + 1) 0 :=
    getD_le_getD_of_sorted a ha (Nat.le_succ _) hk1
  have hg : i - (⌊i⌋.toNat : ℚ) < 1 := by
    have := lt_floor_toNat_add_one i h0
    linarith
  nlinarith [mul_nonneg (by linarith : (0:ℚ) ≤ 1 - (i - (⌊i⌋.toNat : ℚ)))
    (sub_nonneg.mpr hd)]

theorem interpSorted_mono (a : List ℚ) (ha : a.Sorted (· ≤ ·)) {i j : ℚ}
    (hij : i ≤ j) : interpSorted a i ≤ interpSorted a j := by
  rcases eq_or_ne a [] with rfl | hne
  · rw [interpSorted_nil, interpSorted_nil]
  have hlen : 1 ≤ a.length := List.length_pos.mpr hne
  by_cases hti : (a.length : ℚ) - 1 ≤ i
  · -- i clamps to the top, so does j
    have htj : (a.length : ℚ) - 1 ≤ j := le_trans hti hij
    unfold interpSorted
    rw [if_pos hti, if_pos htj]
  by_cases hni : i < 0
  · -- i clamps to the bottom
    have hvi : interpSorted a i = a.headD 0 := by
      unfold interpSorted
      rw [if_neg hti, if_pos hni]
    rw [hvi, headD_eq_getD]
    by_cases htj : (a.length : ℚ) - 1 ≤ j
    · have hvj : interpSorted a j = a.getLastD 0 := by
        unfold interpSorted
        rw [if_pos htj]
      rw [hvj, getLastD_eq_getD]
      exact getD_le_getD_of_sorted a ha (Nat.zero_le _) (by omega)
    by_cases hnj : j < 0
    · have hvj : interpSorted a j = a.headD 0 := by
        unfold interpSorted
        rw [if_neg htj, if_pos hnj]
      rw [hvj, headD_eq_getD]
    · have h0j : 0 ≤ j := le_of_not_lt hnj
      have htj2 : j < (a.length : ℚ) - 1 := lt_of_not_le htj
      have hb := interpSorted_middle_lb a ha j h0j htj2
      have hk1 : ⌊j⌋.toNat + 1 < a.length := floor_toNat_add_one_lt_length a j h0j htj2
      have h00 : a.getD 0 0 ≤ a.getD ⌊j⌋.toNat 0 :=
        getD_le_getD_of_sorted a ha (Nat.zero_le _) (by omega)
      exact le_trans h00 hb
  · -- i is in the interior
    have h0i : 0 ≤ i := le_of_not_lt hni
    have hti2 : i < (a.length : ℚ) - 1 := lt_of_not_le hti
    have hk1i : ⌊i⌋.toNat + 1 < a.length := floor_toNat_add_one_lt_length a i h0i hti2
    by_cases htj : (a.length : ℚ) - 1 ≤ j
    · have hvj : interpSorted a j = a.getLastD 0 := by
        unfold interpSorted
        rw [if_pos htj]
      rw [hvj, getLastD_eq_getD]
      have hub := interpSorted_middle_ub a ha i h0i hti2
      have hlast : a.getD (⌊i⌋.toNat + 1) 0 ≤ a.getD (a.length - 1) 0 :=
        getD_le_getD_of_sorted a ha (by omega) (by omega)
      exact le_trans hub hlast
    · have h0j : 0 ≤ j := le_trans h0i hij
      have htj2 : j < (a.length : ℚ) - 1 := lt_of_not_le htj
      have hk1j : ⌊j⌋.toNat + 1 < a.length := floor_toNat_add_one_lt_length a j h0j htj2
      have hkk : ⌊i⌋.toNat ≤ ⌊j⌋.toNat := Int.toNat_le_toNat (Int.floor_le_floor hij)
      rcases Nat.lt_or_ge ⌊i⌋.toNat ⌊j⌋.toNat with hlt | hge
      · -- different segments
        have hub := interpSorted_middle_ub a ha i h0i hti2
        have hlb := interpSorted_middle_lb a ha j h0j htj2
        have hmid : a.getD (⌊i⌋.toNat + 1) 0 ≤ a.getD ⌊j⌋.toNat 0 :=
          getD_le_getD_of_sorted a ha (by omega) (by omega)
        exact le_trans hub (le_trans hmid hlb)
      · -- same segment: the map is linear with nonnegative slope
        have hkeq : ⌊i⌋.toNat = ⌊j⌋.toNat := le_antisymm hkk hge
        rw [interpSorted_middle a i h0i hti2, interpSorted_middle a j h0j htj2, ← hkeq]
        have hd : a.getD ⌊i⌋.toNat 0 ≤ a.getD (⌊i⌋.toNat + 1) 0 :=
          getD_le_getD_of_sorted a ha (Nat.le_succ _) hk1i
        nlinarith [mul_nonneg (sub_nonneg.mpr hij) (sub_nonneg.mpr hd)]

theorem npQuantile_mono (m : QMethod) (a : List ℚ) {q1 q2 : ℚ} (h : q1 ≤ q2) :
    npQuantile m a q1 ≤ npQuantile m a q2 := by
  rcases eq_or_ne a [] with rfl | hne
  · have hs : List.insertionSort (· ≤ ·) ([] : List ℚ) = [] := rfl
    unfold npQuantile
    rw [hs, interpSorted_nil, interpSorted_nil]
  · have hlen : 1 ≤ a.length := List.length_pos.mpr hne
    have hvi : virtualIndex m a.length q1 ≤ virtualIndex m a.length q2 := by
      cases m with
      | weibull =>
        have hn : (0 : ℚ) ≤ (a.length : ℚ) := Nat.cast_nonneg _
        unfold virtualIndex
        nlinarith
      | linear =>
        have hn : (1 : ℚ) ≤ (a.length : ℚ) := by exact_mod_cast hlen
        unfold virtualIndex
        nlinarith
    exact interpSorted_mono _ (List.sorted_insertionSort _ _) hvi

/-- The values row produced by mapping `npQuantile` over a sorted list of
percentile ranks is itself sorted. -/
theorem quantile_row_sorted (m : QMethod) (a : List ℚ) (ps : List ℚ)
    (hps : ps.Sorted (· ≤ ·)) :
    (ps.map fun q => npQuantile m a q).Sorted (· ≤ ·) :=
  List.Pairwise.map _ (fun _ _ hab => npQuantile_mono m a hab) hps

/-- C4 counterexample: with the default `ignore_na = True`, an empty sample
does not raise; the `np.nanpercentile` path returns a row of NaN sentinels
(with a runtime warning), so `calculate_fixed_percentile_thresholds` on
zero data points returns normally. -/
theorem fixed_thresholds_empty_default_returns :
    calculate_fixed_percentile_thresholds [] [0, 50, 100] .weibull true =
      .ok [none, none, none] := rfl

/-- C4 amended: on an empty sample, `calculate_fixed_percentile_thresholds`
raises only on the `ignore_na = False` (`np.percentile`) path; with
`ignore_na = True` (the default) it returns a full row of NaN sentinels
instead of raising (for in-range percentile ranks). -/
theorem fixed_thresholds_empty_behaviour (ps : List ℚ) (m : QMethod)
    (hps : ∀ q ∈ ps, 0 ≤ q ∧ q ≤ 100) :
    calculate_fixed_percentile_thresholds [] ps m false =
        .error "cannot do a non-empty take from an empty axes" ∧
      calculate_fixed_percentile_thresholds [] ps m true = .ok (nanRow ps) := by
  have hcond : (ps.any fun q => decide (q < 0) || decide (100 < q)) = false := by
    rw [List.any_eq_false]
    intro q hq
    rcases hps q hq with ⟨h1, h2⟩
    simp [not_lt.mpr h1, not_lt.mpr h2]
  unfold calculate_fixed_percentile_thresholds
  rw [hcond]
  simp

/-- C4 amended witness at the concrete ranks `[0, 50, 100]`. -/
theorem fixed_thresholds_empty_behaviour_witness :
    calculate_fixed_percentile_thresholds [] [0, 50, 100] .weibull false =
        .error "cannot do a non-empty take from an empty axes" ∧
      calculate_fixed_percentile_thresholds [] [0, 50, 100] .weibull true =
        .ok (nanRow [0, 50, 100]) :=
  fixed_thresholds_empty_behaviour [0, 50, 100] .weibull (by norm_num)

/-! ## Structure of `np.interp` on a strictly increasing abscissa -/

theorem countP_le_of_sorted_lt (xp : List ℚ) (hs : xp.Sorted (· < ·)) (x : ℚ) :
    ∀ i : ℕ, i < xp.length → xp.getD i 0 ≤ x →
      (i + 1 = xp.length ∨ x < xp.getD (i + 1) 0) →
      xp.countP (fun v => decide (v ≤ x)) = i + 1 := by
  induction xp with
  | nil =>
    intro i hi _ _
    exact absurd hi (by simp)
  | cons a t ih =>
    intro i hi hxi hnext
    rcases List.sorted_cons.mp hs with ⟨hat, hts⟩
    cases i with
    | zero =>
      have ha : a ≤ x := by simpa using hxi
      have ht0 : t.countP (fun v => decide (v ≤ x)) = 0 := by
        rw [List.countP_eq_zero]
        intro b hb
        rcases hnext with hlen | hlt
        · have htlen : t.length = 0 := by
            simp only [List.length_cons] at hlen
            omega
          have htnil : t = [] := List.length_eq_zero.mp htlen
          subst htnil
          simp at hb
        · cases t with
          | nil => simp at hb
          | cons b0 t2 =>
            have hx0 : x < b0 := by simpa using hlt
            rcases List.mem_cons.mp hb with rfl | hb2
            · simp [not_le.mpr hx0]
            · have hb0b : b0 < b := (List.sorted_cons.mp hts).1 b hb2
              simp [not_le.mpr (lt_trans hx0 hb0b)]
      rw [List.countP_cons]
      simp [ha, ht0]
    | succ n =>
      have hn : n < t.length := by
        simp only [List.length_cons] at hi
        omega
      have hxn : t.getD n 0 ≤ x := by
        simpa using hxi
      have hnext2 : n + 1 = t.length ∨ x < t.getD (n + 1) 0 := by
        rcases hnext with hlen | hlt
        · left
          simp only [List.length_cons] at hlen
          omega
        · right
          simpa using hlt
      have hax : a ≤ x := by
        have hmem : t.getD n 0 ∈ t := by
          rw [List.getD_eq_getElem?_getD, List.getElem?_eq_getElem hn]
          simpa using List.getElem_mem hn
        exact le_of_lt (lt_of_lt_of_le (hat _ hmem) hxn)
      rw [List.countP_cons, ih hts n hn hxn hnext2]
      simp [hax]

theorem npInterp_below (x : ℚ) (xp fp : List ℚ) (hne : xp ≠ [])
    (h : x < xp.headD 0) : npInterp x xp fp = fp.headD 0 := by
  unfold npInterp
  rw [if_neg (by simpa using hne), if_pos h]

theorem npInterp_above (x : ℚ) (xp fp : List ℚ) (hne : xp ≠ [])
    (hle : ¬ x < xp.headD 0) (h : xp.getLastD 0 < x) :
    npInterp x xp fp = fp.getLastD 0 := by
  unfold npInterp
  rw [if_neg (by simpa using hne), if_neg hle, if_pos h]

/-- On a strictly increasing abscissa row, `np.interp` inside the segment
`[xp[i], xp[i+1]]` returns the linear interpolation between the pairs
`(xp[i], fp[i])` and `(xp[i+1], fp[i+1])`. -/
theorem npInterp_interior (xp fp : List ℚ) (hs : xp.Sorted (· < ·))
    (hlen : fp.length = xp.length) (x : ℚ) (i : ℕ) (hi1 : i + 1 < xp.length)
    (hx1 : xp.getD i 0 ≤ x) (hx2 : x ≤ xp.getD (i + 1) 0) :
    npInterp x xp fp =
      fp.getD i 0 +
        (fp.getD (i + 1) 0 - fp.getD i 0) / (xp.getD (i + 1) 0 - xp.getD i 0) *
          (x - xp.getD i 0) := by
  have hsle : xp.Sorted (· ≤ ·) := List.Pairwise.imp (fun h => le_of_lt h) hs
  have hne : xp ≠ [] := by
    intro hnil
    rw [hnil] at hi1
    simp at hi1
  have hxij : xp.getD i 0 < xp.getD (i + 1) 0 := by
    have hi : i < xp.length := by omega
    rw [List.getD_eq_getElem?_getD, List.getD_eq_getElem?_getD,
      List.getElem?_eq_getElem hi, List.getElem?_eq_getElem hi1]
    exact List.pairwise_iff_getElem.mp hs i (i + 1) hi hi1 (Nat.lt_succ_self i)
  have hhead : ¬ x < xp.headD 0 := by
    rw [headD_eq_getD]
    have h0i : xp.getD 0 0 ≤ xp.getD i 0 :=
      getD_le_getD_of_sorted xp hsle (Nat.zero_le i) (by omega)
    exact not_lt.mpr (le_trans h0i hx1)
  have hlast : ¬ xp.getLastD 0 < x := by
    rw [getLastD_eq_getD]
    have hil : xp.getD (i + 1) 0 ≤ xp.getD (xp.length - 1) 0 :=
      getD_le_getD_of_sorted xp hsle (by omega) (by omega)
    exact not_lt.mpr (le_trans hx2 hil)
  rcases eq_or_lt_of_le hx2 with hxeq | hxlt
  · -- x is exactly the right endpoint of the segment
    have hcount : xp.countP (fun v => decide (v ≤ x)) = (i + 1) + 1 := by
      apply countP_le_of_sorted_lt xp hs x (i + 1) hi1 (le_of_eq hxeq.symm)
      rcases Nat.lt_or_ge (i + 2) xp.length with hlt2 | hge2
      · right
        have h12 : xp.getD (i + 1) 0 < xp.getD (i + 2) 0 := by
          rw [List.getD_eq_getElem?_getD, List.getD_eq_getElem?_getD,
            List.getElem?_eq_getElem hi1, List.getElem?_eq_getElem hlt2]
          exact List.pairwise_iff_getElem.mp hs (i + 1) (i + 2) hi1 hlt2 (by omega)
        rw [← hxeq] at h12
        exact h12
      · left
        omega
    have hdne : xp.getD (i + 1) 0 - xp.getD i 0 ≠ 0 := ne_of_gt (sub_pos.mpr hxij)
    have hcancel : fp.getD i 0 +
        (fp.getD (i + 1) 0 - fp.getD i 0) / (xp.getD (i + 1) 0 - xp.getD i 0) *
          (x - xp.getD i 0) = fp.getD (i + 1) 0 := by
      rw [hxeq, div_mul_cancel₀ _ hdne]
      ring
    rw [hcancel]
    unfold npInterp
    rw [if_neg (by simpa using hne), if_neg hhead, if_neg hlast]
    simp only [hcount]
    by_cases hil : i + 1 + 1 - 1 = xp.length - 1
    · rw [if_pos hil]
      rw [getLastD_eq_getD fp, hlen]
      congr 1
      omega
    · rw [if_neg hil]
      have hxj : xp.getD (i + 1 + 1 - 1) 0 = x := by
        simpa using hxeq.symm
      rw [if_pos hxj]
      simp
  · -- x is strictly inside the segment
    have hcount : xp.countP (fun v => decide (v ≤ x)) = i + 1 :=
      countP_le_of_sorted_lt xp hs x i (by omega) hx1 (Or.inr hxlt)
    unfold npInterp
    rw [if_neg (by simpa using hne), if_neg hhead, if_neg hlast]
    simp only [hcount]
    have hjne : ¬ i + 1 - 1 = xp.length - 1 := by omega
    rw [if_neg hjne]
    by_cases hxi : xp.getD (i + 1 - 1) 0 = x
    · rw [if_pos hxi]
      have hxi2 : xp.getD i 0 = x := by simpa using hxi
      rw [hxi2, sub_self, mul_zero, add_zero]
      simp
    · rw [if_neg hxi]
      simp

/-- C3 counterexample: for the thresholds row pairing values
`[0, 50, 100]` with percentile ranks `[0, 50, 100]`, the input `−10` lies
below the smallest threshold; linear extrapolation along the boundary
segment (slope 1) would give `−10`, but the code clamps to the boundary
percentile rank and returns `0`. -/
theorem percentile_from_value_clamps :
    calculate_percentile_from_value (-10) ⟨[0, 50, 100], [0, 50, 100]⟩ = 0 ∧
      (0 : ℚ) + (50 - 0) / (50 - 0) * (-10 - 0) = -10 ∧ (0 : ℚ) ≠ -10 := by
  refine ⟨?_, by norm_num, by norm_num⟩
  norm_num [calculate_percentile_from_value, npInterp]

/-- C3 amended: on a strictly increasing values row, values inside the
threshold range interpolate linearly between the two surrounding
(threshold, percentile-rank) pairs, while values below the smallest
threshold return the lowest percentile rank and values above the largest
return the highest rank (clamping, not extrapolation). -/
theorem percentile_from_value_interp (pdf : PercDF) (x : ℚ)
    (hs : pdf.rowValues.Sorted (· < ·))
    (hlen : pdf.thresholds.length = pdf.rowValues.length) :
    (pdf.rowValues ≠ [] → x < pdf.rowValues.headD 0 →
        calculate_percentile_from_value x pdf = pdf.thresholds.headD 0) ∧
    (pdf.rowValues ≠ [] → pdf.rowValues.getLastD 0 < x →
        calculate_percentile_from_value x pdf = pdf.thresholds.getLastD 0) ∧
    (∀ i : ℕ, i + 1 < pdf.rowValues.length → pdf.rowValues.getD i 0 ≤ x →
        x ≤ pdf.rowValues.getD (i + 1) 0 →
        calculate_percentile_from_value x pdf =
          pdf.thresholds.getD i 0 +
            (pdf.thresholds.getD (i + 1) 0 - pdf.thresholds.getD i 0) /
              (pdf.rowValues.getD (i + 1) 0 - pdf.rowValues.getD i 0) *
              (x - pdf.rowValues.getD i 0)) := by
  refine ⟨fun hne hx => npInterp_below x _ _ hne hx, fun hne hx => ?_, fun i hi1 hx1 hx2 =>
    npInterp_interior _ _ hs hlen x i hi1 hx1 hx2⟩
  have hsle : pdf.rowValues.Sorted (· ≤ ·) := List.Pairwise.imp (fun h => le_of_lt h) hs
  have hhl : pdf.rowValues.headD 0 ≤ pdf.rowValues.getLastD 0 := by
    rw [headD_eq_getD, getLastD_eq_getD]
    have hlen1 : 1 ≤ pdf.rowValues.length := List.length_pos.mpr hne
    exact getD_le_getD_of_sorted _ hsle (Nat.zero_le _) (by omega)
  exact npInterp_above x _ _ hne (not_lt.mpr (le_of_lt (lt_of_le_of_lt hhl hx))) hx

/-- C9 counterexample: on the constant two-point sample `[1, 1]` the
thresholds at ranks `[0, 50, 100]` are all `1`; the sample's median is
`1`, and inverting it through `np.interp` returns `100`, not ≈ 50
(`np.interp` resolves the tied abscissas to the last matching rank). -/
theorem round_trip_median_constant :
    calculate_fixed_percentile_thresholds [some 1, some 1] [0, 50, 100] .weibull true =
        .ok [some 1, some 1, some 1] ∧
      calculate_percentile_from_value 1 ⟨[0, 50, 100], [1, 1, 1]⟩ = 100 := by
  constructor
  · norm_num [calculate_fixed_percentile_thresholds, npQuantile, interpSorted, virtualIndex,
      List.insertionSort, List.orderedInsert, Int.toNat, nanRow, List.filterMap_cons]
  · norm_num [calculate_percentile_from_value, npInterp, List.countP, List.countP.go]

/-- C9 amended: for every non-empty sample whose median (the rank-50
weibull threshold) is strictly below its maximum (the rank-100 threshold),
computing thresholds at ranks `[0, 50, 100]` and inverting the median
through `calculate_percentile_from_value` returns exactly 50. -/
theorem round_trip_median (data : List ℚ) (hne : data ≠ [])
    (hlt : npQuantile .weibull data 50 < npQuantile .weibull data 100) :
    calculate_fixed_percentile_thresholds (data.map some) [0, 50, 100] .weibull true =
        .ok [some (npQuantile .weibull data 0), some (npQuantile .weibull data 50),
             some (npQuantile .weibull data 100)] ∧
      calculate_percentile_from_value (npQuantile .weibull data 50)
        ⟨[0, 50, 100],
         [npQuantile .weibull data 0, npQuantile .weibull data 50,
          npQuantile .weibull data 100]⟩ = 50 := by
  have h05 : npQuantile .weibull data 0 ≤ npQuantile .weibull data 50 :=
    npQuantile_mono .weibull data (by norm_num)
  constructor
  · unfold calculate_fixed_percentile_thresholds
    rw [if_neg (by norm_num)]
    simp [hne]
  · have hcount : List.countP (fun v => decide (v ≤ npQuantile .weibull data 50))
        [npQuantile .weibull data 0, npQuantile .weibull data 50,
         npQuantile .weibull data 100] = 2 := by
      simp [List.countP_cons, h05, not_le.mpr hlt]
    unfold calculate_percentile_from_value npInterp
    rw [if_neg (by simp), if_neg (by simpa using not_lt.mpr h05),
      if_neg (by simpa using not_lt.mpr (le_of_lt hlt))]
    simp only [hcount]
    norm_num

/-- C9 amended witness: the sample `[0, 1, 2]` has median 1 strictly below
maximum 2, and the round trip returns exactly 50. -/
theorem round_trip_median_witness :
    calculate_percentile_from_value (npQuantile .weibull [0, 1, 2] 50)
      ⟨[0, 50, 100],
       [npQuantile .weibull [0, 1, 2] 0, npQuantile .weibull [0, 1, 2] 50,
        npQuantile .weibull [0, 1, 2] 100]⟩ = 50 :=
  (round_trip_median [0, 1, 2] (by decide)
    (by norm_num [npQuantile, interpSorted, virtualIndex, List.insertionSort,
      List.orderedInsert, Int.toNat])).2

/-- C7: for every non-empty series, `calculate_metadata` reports
`n_years` equal to the number of distinct index years and `n_gaps` equal
to `(max year − min year + 1) − n_years`. -/
theorem metadata_years_and_gaps (data : Series) (h : data ≠ []) :
    (calculate_metadata data).n_years = (data.map fun e => e.1.year).toFinset.card ∧
    (calculate_metadata data).n_gaps =
      some (((((data.map fun e => e.1.year).max?.getD 0 : ℕ) : ℤ) -
          (((data.map fun e => e.1.year).min?.getD 0 : ℕ) : ℤ) + 1) -
        ((data.map fun e => e.1.year).toFinset.card : ℤ)) := by
  have hne : (data.map fun e => e.1.year) ≠ [] := by
    simpa using h
  obtain ⟨mx, hmx⟩ : ∃ mx, (data.map fun e => e.1.year).max? = some mx := by
    cases hm : (data.map fun e => e.1.year).max? with
    | none => exact absurd (List.max?_eq_none_iff.mp hm) hne
    | some mx => exact ⟨mx, rfl⟩
  obtain ⟨mn, hmn⟩ : ∃ mn, (data.map fun e => e.1.year).min? = some mn := by
    cases hm : (data.map fun e => e.1.year).min? with
    | none => exact absurd (List.min?_eq_none_iff.mp hm) hne
    | some mn => exact ⟨mn, rfl⟩
  constructor
  · exact (List.card_toFinset _).symm
  · have hgaps : (calculate_metadata data).n_gaps =
        ((data.map fun e => e.1.year).max?.bind fun (mx : ℕ) =>
          (data.map fun e => e.1.year).min?.map fun (mn : ℕ) =>
            (mx : ℤ) - (mn : ℤ) + 1 -
              ((data.map fun e => e.1.year).dedup.length : ℤ)) := rfl
    rw [hgaps, hmx, hmn]
    simp [List.card_toFinset]

/-- C7 witness: the repository's 4-point yearly test series with its
second point removed reports `n_years = 3` (decremented from 4) and
`n_gaps = 1`. -/
theorem metadata_years_and_gaps_witness :
    (calculate_metadata sampleSeries3).n_years = 3 ∧
      (calculate_metadata sampleSeries3).n_gaps = some 1 ∧
      (calculate_metadata sampleSeries4).n_years = 4 := by
  have h := metadata_years_and_gaps sampleSeries3 (by decide)
  refine ⟨?_, ?_, by decide⟩
  · rw [h.1]; decide
  · rw [h.2]; decide

/-- C8 counterexample: on an empty series the code's `n_gaps` is the NaN
sentinel produced by pandas index reductions, not the number 0 claimed by
the spec. -/
theorem metadata_empty_gaps_not_zero :
    (calculate_metadata []).n_gaps = none ∧ (calculate_metadata []).n_gaps ≠ some 0 := by
  decide

/-- C8 amended: `calculate_metadata` on an empty series returns normally;
`n_years`, `n_data`, `n_zeros`, `n_nans`, `n_lows` are all zero,
`start_date` and `end_date` are the NaT sentinel, and `n_gaps` is the NaN
sentinel (not zero). -/
theorem metadata_empty_series :
    calculate_metadata [] =
      { n_years := 0, n_data := 0, n_gaps := none, start_date := none,
        end_date := none, n_zeros := 0, n_nans := 0, n_lows := 0 } := by
  decide

/-! ## C10: frame effect of `streamflow_to_runoff` -/

theorem find?_mapReplace_self (t : PyDF) (name : String) (vs : List ℚ)
    (h : (t.any fun c => c.1 = name) = true) :
    ((t.map fun d => if d.1 = name then (d.1, vs) else d).find? fun c => c.1 = name) =
      some (name, vs) := by
  induction t with
  | nil => simp at h
  | cons d t2 ih =>
    by_cases hd : d.1 = name
    · simp [hd]
    · simp only [List.any_cons, Bool.or_eq_true, decide_eq_true_eq] at h
      rcases h with h | h
    
      · exact absurd h hd
      · simp only [List.map_cons, if_neg hd]
        rw [List.find?_cons_of_neg _ (by simpa using hd)]
        exact ih h

theorem filter_mapReplace (t : PyDF) (name : String) (vs : List ℚ) :
    ((t.map fun d => if d.1 = name then (d.1, vs) else d).filter fun c => c.1 ≠ name) =
      t.filter fun c => c.1 ≠ name := by
  induction t with
  | nil => rfl
  | cons d t2 ih =>
    by_cases hd : d.1 = name
    · simp only [ne_eq, decide_not] at ih
      simp only [ne_eq, decide_not]
      simp [hd, ih]
    · simp only [ne_eq, decide_not] at ih
      simp only [ne_eq, decide_not]
      simp [hd, ih]

theorem getCol_setCol_self (df : PyDF) (name : String) (vs : List ℚ) :
    getCol (setCol df name vs) name = vs := by
  unfold setCol
  by_cases hany : (df.any fun c => c.1 = name) = true
  · rw [if_pos hany]
    unfold getCol
    rw [find?_mapReplace_self df name vs hany]
    rfl
  · rw [if_neg hany]
    unfold getCol
    have hnone : (df.find? fun c => decide (c.1 = name)) = none := by
      rw [List.find?_eq_none]
      intro x hx
      simp only [List.any_eq_true] at hany
      simpa using fun hxx => hany ⟨x, hx, by simpa using hxx⟩
    rw [List.find?_append, hnone]
    simp

theorem setCol_preserves_others (df : PyDF) (name : String) (vs : List ℚ) :
    ((setCol df name vs).filter fun c => c.1 ≠ name) =
      df.filter fun c => c.1 ≠ name := by
  unfold setCol
  by_cases hany : (df.any fun c => c.1 = name) = true
  · rw [if_pos hany]
    exact filter_mapReplace df name vs
  · rw [if_neg hany]
    simp

/-- C10 counterexample: on a DataFrame that already has a `'runoff'`
column, `streamflow_to_runoff` overwrites that pre-existing column, so
not every pre-existing column's values survive the call. -/
theorem streamflow_overwrites_runoff_col :
    streamflow_to_runoff [[("flow", [14]), ("runoff", [999])]] 0 "flow" 250 "annual" =
        .ok ([[("flow", [14]),
          ("runoff", [14 * 60 * 60 * 24 * (365.25 : ℚ) * (0.3048 : ℚ) ^ 3 /
            (250 * 1000 * 1000) * 1000])]], 0) ∧
      14 * 60 * 60 * 24 * (365.25 : ℚ) * (0.3048 : ℚ) ^ 3 / (250 * 1000 * 1000) * 1000 ≠
        999 := by
  constructor
  · norm_num [streamflow_to_runoff, getCol, setCol, convert_cfs_to_runoff, freqDays,
      List.mapM, List.mapM.loop, Except.map, List.find?, String.ext_iff]
    decide
  · norm_num

/-- C10 amended: `streamflow_to_runoff` writes the converted `'runoff'`
column into the caller-supplied DataFrame object itself and returns that
same reference; every pre-existing column other than `'runoff'`
(including the data column) is left unchanged, and no other object in the
store is touched — but a pre-existing `'runoff'` column is overwritten. -/
theorem streamflow_to_runoff_effect (σ : Store) (r : ℕ) (dataCol : String)
    (da : ℚ) (freq : String) (vs : List ℚ)
    (h : ((getCol (σ.getD r []) dataCol).mapM fun x =>
        convert_cfs_to_runoff x da freq) = .ok vs) :
    streamflow_to_runoff σ r dataCol da freq =
        .ok (σ.set r (setCol (σ.getD r []) "runoff" vs), r) ∧
      getCol (setCol (σ.getD r []) "runoff" vs) "runoff" = vs ∧
      ((setCol (σ.getD r []) "runoff" vs).filter fun c => c.1 ≠ "runoff") =
        ((σ.getD r []).filter fun c => c.1 ≠ "runoff") ∧
      ∀ r2, r2 ≠ r →
        (σ.set r (setCol (σ.getD r []) "runoff" vs)).getD r2 [] = σ.getD r2 [] := by
    refine ⟨?_, getCol_setCol_self _ _ _, setCol_preserves_others _ _ _, ?_⟩
    · simp only [streamflow_to_runoff]
      rw [h]
      rfl
    · intro r2 hr2
      rcases Nat.lt_or_ge r σ.length with hr | hr
      · rw [List.getD_eq_getElem?_getD, List.getElem?_set_ne (by omega),
          ← List.getD_eq_getElem?_getD]
      · rw [List.set_eq_of_length_le (by omega)]

/-- C10 amended witness: a store with one DataFrame `{flow: [14]}`; the
call succeeds, mutates that object by adding the runoff column, and the
stored object's runoff column holds the converted values. -/
theorem streamflow_to_runoff_effect_witness :
    streamflow_to_runoff [[("flow", [14])]] 0 "flow" 250 "annual" =
        .ok (List.set [[("flow", [14])]] 0
          (setCol (List.getD [[("flow", [14])]] 0 []) "runoff"
            [14 * 60 * 60 * 24 * (365.25 : ℚ) * (0.3048 : ℚ) ^ 3 /
              (250 * 1000 * 1000) * 1000]), 0) ∧
      getCol (setCol (List.getD [[("flow", [14])]] 0 []) "runoff"
          [14 * 60 * 60 * 24 * (365.25 : ℚ) * (0.3048 : ℚ) ^ 3 /
            (250 * 1000 * 1000) * 1000]) "runoff" =
        [14 * 60 * 60 * 24 * (365.25 : ℚ) * (0.3048 : ℚ) ^ 3 /
          (250 * 1000 * 1000) * 1000] := by
  have h := streamflow_to_runoff_effect [[("flow", [14])]] 0 "flow" 250 "annual"
    [14 * 60 * 60 * 24 * (365.25 : ℚ) * (0.3048 : ℚ) ^ 3 / (250 * 1000 * 1000) * 1000]
    (by norm_num [getCol, convert_cfs_to_runoff, freqDays, List.find?, List.mapM,
      List.mapM.loop, Except.map])
  exact ⟨h.1, h.2.1⟩

/-! ## C2: missing weights in the area-weighted aggregation -/

/-- A site whose weight is the NaN sentinel contributes a NaN cell at
every date, exactly as if its dataframe were absent from the list. -/
theorem weightedCell_erase (L1 L2 : List SiteDF) (df0 : SiteDF) (w : WeightsCol)
    (hw0 : wLookup w df0.site = none)
    (hnotin : df0.site ∉ (L1 ++ L2).map fun df => df.site) :
    ∀ s t, weightedCell (L1 ++ df0 :: L2) w s t = weightedCell (L1 ++ L2) w s t := by
  intro s t
  have hne : ∀ df ∈ L1 ++ L2, ¬ (df.site = df0.site) := by
    intro df hdf heq
    exact hnotin (List.mem_map.mpr ⟨df, hdf, heq⟩)
  by_cases hs : df0.site = s
  · subst hs
    have hfilL1 : L1.filter (fun df => decide (df.site = df0.site)) = [] := by
      rw [List.filter_eq_nil_iff]
      intro df hdf
      simpa using hne df (List.mem_append_left _ hdf)
    have hfilL2 : L2.filter (fun df => decide (df.site = df0.site)) = [] := by
      rw [List.filter_eq_nil_iff]
      intro df hdf
      simpa using hne df (List.mem_append_right _ hdf)
    unfold weightedCell siteRowDF
    rw [List.filter_append, List.filter_cons, List.filter_append, hfilL1, hfilL2]
    simp [hw0]
  · have hfil : (L1 ++ df0 :: L2).filter (fun df => decide (df.site = s)) =
        (L1 ++ L2).filter (fun df => decide (df.site = s)) := by
      rw [List.filter_append, List.filter_cons, List.filter_append,
        if_neg (by simpa using hs)]
    unfold weightedCell siteRowDF
    rw [hfil]

/-- C2 counterexample: with sites 1 (weight 1) and 2 (weight NaN), where
site 2's dataframe extends the date range by one day, the call with site 2
present yields an extra date (with value 0), so the result does not equal
the call with site 2's dataframe removed. -/
theorem geometric_runoff_range_counterexample :
    calculate_geometric_runoff
        [⟨1, [(0, some 10), (1, some 10)]⟩, ⟨2, [(0, some 4), (1, some 4), (2, some 4)]⟩]
        [(1, some 1), (2, none)] = .ok [(0, 10), (1, 10), (2, 0)] ∧
      calculate_geometric_runoff [⟨1, [(0, some 10), (1, some 10)]⟩]
        [(1, some 1), (2, none)] = .ok [(0, 10), (1, 10)] ∧
      ([(0, 10), (1, 10), (2, 0)] : List (ℕ × ℚ)) ≠ [(0, 10), (1, 10)] := by
  refine ⟨?_, ?_, by decide⟩
  · norm_num [calculate_geometric_runoff, dateRange, skipnaSum, weightedCell, siteRowDF,
      wLookup, dfValue, List.find?, List.range', List.filter, List.filterMap_cons]
  · norm_num [calculate_geometric_runoff, dateRange, skipnaSum, weightedCell, siteRowDF,
      wLookup, dfValue, List.find?, List.range', List.filter, List.filterMap_cons]

/-- C2 amended: a site whose weight is missing (NaN) is excluded from both
the numerator and the denominator, and — provided the removed site's dates
do not extend the overall date range — the result equals the result of
calling `calculate_geometric_runoff` with that site's dataframe removed
from the input list.  (When the site's dates extend the range, the two
results differ in their date index, as the counterexample shows.) -/
theorem geometric_runoff_missing_weight (L1 L2 : List SiteDF) (df0 : SiteDF)
    (w : WeightsCol)
    (hwfound : (w.find? fun p => p.1 = df0.site).isSome)
    (hw0 : wLookup w df0.site = none)
    (hnotin : df0.site ∉ (L1 ++ L2).map fun df => df.site)
    (hne2 : L1 ++ L2 ≠ [])
    (hrows : ∀ df ∈ L1 ++ df0 :: L2, df.rows ≠ [])
    (hkeys : ∀ df ∈ L1 ++ L2, (w.find? fun p => p.1 = df.site).isSome)
    (hrange : dateRange (L1 ++ df0 :: L2) = dateRange (L1 ++ L2)) :
    calculate_geometric_runoff (L1 ++ df0 :: L2) w =
      calculate_geometric_runoff (L1 ++ L2) w := by
  have hmemBig : ∀ df ∈ L1 ++ L2, df ∈ L1 ++ df0 :: L2 := by
    intro df hdf
    rcases List.mem_append.mp hdf with h1 | h2
    · exact List.mem_append_left _ h1
    · exact List.mem_append_right _ (List.mem_cons_of_mem _ h2)
  have hg1 : ¬ ((L1 ++ df0 :: L2).isEmpty = true) := by
    simp
  have hg1s : ¬ ((L1 ++ L2).isEmpty = true) := by
    simpa using hne2
  have hg2 : ¬ (((L1 ++ df0 :: L2).any fun df => df.rows.isEmpty) = true) := by
    simp only [List.any_eq_true, not_exists, not_and]
    intro df hdf
    simpa using hrows df hdf
  have hg2s : ¬ (((L1 ++ L2).any fun df => df.rows.isEmpty) = true) := by
    simp only [List.any_eq_true, not_exists, not_and]
    intro df hdf
    simpa using hrows df (hmemBig df hdf)
  have hg3 : ¬ (((L1 ++ df0 :: L2).any fun df =>
      (w.find? fun p => p.1 = df.site).isNone) = true) := by
    simp only [List.any_eq_true, not_exists, not_and]
    intro df hdf hcontra
    rw [Option.isNone_iff_eq_none] at hcontra
    rcases List.mem_append.mp hdf with h1 | h2
    · have hsome := hkeys df (List.mem_append_left _ h1)
      rw [hcontra] at hsome
      simp at hsome
    · rcases List.mem_cons.mp h2 with rfl | h3
      · rw [hcontra] at hwfound
        simp at hwfound
      · have hsome := hkeys df (List.mem_append_right _ h3)
        rw [hcontra] at hsome
        simp at hsome
  have hg3s : ¬ (((L1 ++ L2).any fun df =>
      (w.find? fun p => p.1 = df.site).isNone) = true) := by
    simp only [List.any_eq_true, not_exists, not_and]
    intro df hdf hcontra
    rw [Option.isNone_iff_eq_none] at hcontra
    have hsome := hkeys df hdf
    rw [hcontra] at hsome
    simp at hsome
  unfold calculate_geometric_runoff
  rw [if_neg hg1, if_neg hg2, if_neg hg3, if_neg hg1s, if_neg hg2s, if_neg hg3s, hrange]
  simp only [weightedCell_erase L1 L2 df0 w hw0 hnotin]

/-- C2 amended witness: site 2 has a NaN weight and its single date lies
inside site 1's range, so removing its dataframe leaves the result
unchanged. -/
theorem geometric_runoff_missing_weight_witness :
    calculate_geometric_runoff
        [⟨1, [(0, some 10), (1, some 10)]⟩, ⟨2, [(1, some 5)]⟩] [(1, some 1), (2, none)] =
      calculate_geometric_runoff [⟨1, [(0, some 10), (1, some 10)]⟩]
        [(1, some 1), (2, none)] :=
  geometric_runoff_missing_weight [⟨1, [(0, some 10), (1, some 10)]⟩] []
    ⟨2, [(1, some 5)]⟩ [(1, some 1), (2, none)] (by decide) (by decide) (by decide)
    (by decide) (by decide) (by decide) (by decide)

theorem relDoy_eq_relDoySpec (yt : YearType) (d : ℤ) : relDoy yt d = relDoySpec yt d := by
  cases yt <;> simp [relDoy, relDoySpec, relDoyShift]

theorem lex_le_fst {x y : ℤ ×ₗ (ℕ ×ₗ ℕ)} (h : x ≤ y) : (ofLex x).1 ≤ (ofLex y).1 := by
  rcases (Prod.Lex.le_iff (ofLex x) (ofLex y)).mp h with hlt | ⟨heq, _⟩
  · exact le_of_lt hlt
  · exact le_of_eq heq

/-- C5 counterexample: the raw ordinal 273 under `year_type='water'`
shifts to 0, which the code wraps (its condition is `< 1`), indexing that
row at relative day 365 — the claim's arithmetic (wrap only negative
results) would leave it at 0.  A concrete two-day series around the water
year boundary exhibits the composite index ((1, 10-01), (365, 09-30)). -/
theorem relday_wrap_at_zero :
    calculate_variable_percentile_thresholds_by_day
        [(⟨2001, 9, 30⟩, (none : Option ℚ)), (⟨2001, 10, 1⟩, none)]
        [50] .weibull "daily" .water 0 0 0 true =
      .ok [(toLex ((1 : ℤ), toLex ((10 : ℕ), (1 : ℕ))), [none]),
           (toLex ((365 : ℤ), toLex ((9 : ℕ), (30 : ℕ))), [none])] ∧
      relDoy .water 273 = 365 ∧
      (if (273 : ℤ) - 273 < 0 then (273 : ℤ) - 273 + 365 else (273 : ℤ) - 273) = 0 ∧
      (365 : ℤ) ≠ 0 := by
  refine ⟨by rfl, by rfl, by norm_num, by norm_num⟩

/-- C5 amended: for every table and year type, the post-processed output
is a permutation of the rows keyed by (relative day-of-year, month-day
label), where the relative day-of-year is the raw ordinal shifted by the
year-type's cycle-start offset (273 for water, 90 for climate, 0 for
calendar) with 365 added whenever the shifted result is less than 1; and
the returned rows are sorted by the relative day-of-year. -/
theorem postprocess_relday_sorted (yt : YearType) (tbl : List (ℕ × List (Option ℚ))) :
    (postprocess yt tbl).Perm
        (tbl.map fun p => (toLex (relDoySpec yt (p.1 : ℤ), toLex (mdOfDoy p.1)), p.2)) ∧
      ((postprocess yt tbl).map fun p => (ofLex p.1).1).Sorted (· ≤ ·) := by
  constructor
  · have hmap : (tbl.map fun p => (toLex (relDoy yt (p.1 : ℤ), toLex (mdOfDoy p.1)), p.2)) =
        tbl.map fun p => (toLex (relDoySpec yt (p.1 : ℤ), toLex (mdOfDoy p.1)), p.2) := by
      simp only [relDoy_eq_relDoySpec]
    exact hmap ▸ List.perm_insertionSort _ _
  · unfold postprocess
    exact List.Pairwise.map _ (fun a b hab => lex_le_fst hab)
      (List.sorted_insertionSort _ _)

/-! ## C1: the min-years gate of the engine -/

/-- For in-range percentile ranks and a non-empty sample,
`calculate_fixed_percentile_thresholds` never raises. -/
theorem fixed_thresholds_ok (data : List (Option ℚ)) (ps : List ℚ) (m : QMethod)
    (ina : Bool) (hps : ∀ q ∈ ps, 0 ≤ q ∧ q ≤ 100) (hne : data ≠ []) :
    ∃ row, calculate_fixed_percentile_thresholds data ps m ina = .ok row := by
  have hcond : (ps.any fun q => decide (q < 0) || decide (100 < q)) = false := by
    rw [List.any_eq_false]
    intro q hq
    rcases hps q hq with ⟨h1, h2⟩
    simp [not_lt.mpr h1, not_lt.mpr h2]
  unfold calculate_fixed_percentile_thresholds
  rw [hcond]
  rw [if_neg (by simp)]
  cases ina with
  | true =>
    rw [if_pos rfl]
    by_cases hC : ((data.filterMap id).isEmpty = true)
    · rw [if_pos hC]
      exact ⟨_, rfl⟩
    · rw [if_neg hC]
      exact ⟨_, rfl⟩
  | false =>
    rw [if_neg (by simp)]
    rw [if_neg (by simpa using hne)]
    by_cases hN : ((data.any fun v => v.isNone) = true)
    · rw [if_pos hN]
      exact ⟨_, rfl⟩
    · rw [if_neg hN]
      exact ⟨_, rfl⟩

/-- Under a positive `min_years`, the per-day loop body never raises: a
day passing the gate has at least one year of data, hence a non-empty
sample. -/
theorem rowForDoy_ok (df2 : Series) (yt : YearType) (ps : List ℚ) (m : QMethod)
    (minYears leading trailing : ℕ) (ina : Bool) (d : ℕ)
    (hmin : 1 ≤ minYears) (hps : ∀ q ∈ ps, 0 ≤ q ∧ q ≤ 100) :
    ∃ row, rowForDoy df2 yt ps m minYears leading trailing ina d = .ok row := by
  unfold rowForDoy
  by_cases hgate : minYears ≤
      (calculate_metadata (filter_data_by_time df2 yt d leading trailing ina)).n_years
  · rw [if_pos hgate]
    apply fixed_thresholds_ok _ _ _ _ hps
    have hdne : filter_data_by_time df2 yt d leading trailing ina ≠ [] := by
      intro hnil
      rw [hnil] at hgate
      have hz : (calculate_metadata ([] : Series)).n_years = 0 := rfl
      omega
    simpa using hdne
  · rw [if_neg hgate]
    exact ⟨_, rfl⟩

/-- The loop builds one row per day, in order, each row the value of the
loop body at its day. -/
theorem buildRows_ok (f : ℕ → Except String (List (Option ℚ))) (ds : List ℕ)
    (h : ∀ d ∈ ds, ∃ r, f d = .ok r) :
    ∃ tbl, buildRows f ds = .ok tbl ∧ tbl.map (fun p => p.1) = ds ∧
      ∀ d row, (d, row) ∈ tbl → f d = .ok row := by
  induction ds with
  | nil => exact ⟨[], rfl, rfl, by simp⟩
  | cons d rest ih =>
    obtain ⟨r, hr⟩ := h d (List.mem_cons_self d rest)
    obtain ⟨tbl, htbl, hmap, hrows⟩ := ih fun d2 hd2 => h d2 (List.mem_cons_of_mem _ hd2)
    refine ⟨(d, r) :: tbl, ?_, by simp [hmap], ?_⟩
    · unfold buildRows
      rw [hr, htbl]
      rfl
    · intro d2 row2 hmem
      rcases List.mem_cons.mp hmem with heq | hmem2
      · have h1 : d2 = d := congrArg Prod.fst heq
        have h2 : row2 = r := congrArg Prod.snd heq
        rw [h1, h2]
        exact hr
      · exact hrows _ _ hmem2

/-- C1: with a positive `min_years` and in-range percentile ranks, the
engine completes without raising, producing one row per observed
day-of-year; each day whose sample metadata has `n_years ≥ min_years`
holds the thresholds computed by `calculate_fixed_percentile_thresholds`
for that day's sample, and every other day's row consists entirely of
missing-value sentinels. -/
theorem variable_thresholds_gate (df : Series) (ps : List ℚ) (m : QMethod)
    (dataType : String) (yt : YearType) (minYears leading trailing : ℕ)
    (ignoreNa : Bool) (w : ℕ)
    (hdt : set_data_type dataType = .ok w)
    (hmin : 1 ≤ minYears)
    (hps : ∀ q ∈ ps, 0 ≤ q ∧ q ≤ 100) :
    ∃ tbl, calculate_variable_percentile_thresholds_by_day df ps m dataType yt
        minYears leading trailing ignoreNa = .ok (postprocess yt tbl) ∧
      tbl.map (fun p => p.1) = doyRange (rolling_average (clipLeapDay df) w) ∧
      ∀ d row, (d, row) ∈ tbl →
        (minYears ≤ (calculate_metadata (filter_data_by_time
            (rolling_average (clipLeapDay df) w) yt d leading trailing
            ignoreNa)).n_years →
          calculate_fixed_percentile_thresholds
            ((filter_data_by_time (rolling_average (clipLeapDay df) w) yt d leading
              trailing ignoreNa).map fun e => e.2) ps m ignoreNa = .ok row) ∧
        ((calculate_metadata (filter_data_by_time (rolling_average (clipLeapDay df) w)
            yt d leading trailing ignoreNa)).n_years < minYears → row = nanRow ps) := by
  obtain ⟨tbl, htbl, hmap, hrows⟩ := buildRows_ok
    (rowForDoy (rolling_average (clipLeapDay df) w) yt ps m minYears leading trailing
      ignoreNa)
    (doyRange (rolling_average (clipLeapDay df) w))
    (fun d _ => rowForDoy_ok _ yt ps m minYears leading trailing ignoreNa d hmin hps)
  refine ⟨tbl, ?_, hmap, ?_⟩
  · simp only [calculate_variable_percentile_thresholds_by_day, hdt]
    show ((buildRows _ _).map fun t => postprocess yt t) = .ok (postprocess yt tbl)
    rw [htbl]
    rfl
  · intro d row hmem
    have hrow := hrows d row hmem
    unfold rowForDoy at hrow
    by_cases hgate : minYears ≤ (calculate_metadata (filter_data_by_time
        (rolling_average (clipLeapDay df) w) yt d leading trailing ignoreNa)).n_years
    · rw [if_pos hgate] at hrow
      exact ⟨fun _ => hrow, fun hlt => absurd hgate (not_le.mpr hlt)⟩
    · rw [if_neg hgate] at hrow
      refine ⟨fun hge => absurd hge hgate, fun _ => ?_⟩
      simpa using hrow.symm

/-- C1 witness: a one-point series under the default-style setting
`min_years = 10`; the single observed day fails the gate and its row is
the NaN sentinel row. -/
theorem variable_thresholds_gate_witness :
    ∃ tbl, calculate_variable_percentile_thresholds_by_day
        [(⟨2001, 9, 30⟩, (some 7 : Option ℚ))] [0, 50, 100] .weibull "daily" .water
        10 0 0 true = .ok (postprocess .water tbl) ∧
      tbl.map (fun p => p.1) =
        doyRange (rolling_average (clipLeapDay [(⟨2001, 9, 30⟩, (some 7 : Option ℚ))]) 1) ∧
      ∀ d row, (d, row) ∈ tbl →
        (10 ≤ (calculate_metadata (filter_data_by_time
            (rolling_average (clipLeapDay [(⟨2001, 9, 30⟩, (some 7 : Option ℚ))]) 1)
            .water d 0 0 true)).n_years →
          calculate_fixed_percentile_thresholds
            ((filter_data_by_time
              (rolling_average (clipLeapDay [(⟨2001, 9, 30⟩, (some 7 : Option ℚ))]) 1)
              .water d 0 0 true).map fun e => e.2) [0, 50, 100] .weibull true = .ok row) ∧
        ((calculate_metadata (filter_data_by_time
            (rolling_average (clipLeapDay [(⟨2001, 9, 30⟩, (some 7 : Option ℚ))]) 1)
            .water d 0 0 true)).n_years < 10 → row = nanRow [0, 50, 100]) :=
  variable_thresholds_gate [(⟨2001, 9, 30⟩, (some 7 : Option ℚ))] [0, 50, 100] .weibull
    "daily" .water 10 0 0 true 1 rfl (by norm_num) (by norm_num)

/-! ## C6: monotone threshold rows -/

/-- C6: under the default weibull method with `ignore_na = True`, a sample
with at least one non-missing value and a non-decreasing list of in-range
percentile ranks yields the quantile row, whose values are monotonically
non-decreasing in percentile rank; consequently every row of the engine's
per-day loop that is free of missing-value sentinels is monotonically
non-decreasing across its percentile columns. -/
theorem thresholds_monotone (ps : List ℚ)
    (hps : ps.Sorted (· ≤ ·)) (hrange : ∀ q ∈ ps, 0 ≤ q ∧ q ≤ 100) :
    (∀ data : List (Option ℚ), data.filterMap id ≠ [] →
      calculate_fixed_percentile_thresholds data ps .weibull true =
          .ok (ps.map fun q => some (npQuantile .weibull (data.filterMap id) q)) ∧
        (ps.map fun q => npQuantile .weibull (data.filterMap id) q).Sorted (· ≤ ·)) ∧
    ∀ (df2 : Series) (yt : YearType) (minYears leading trailing d : ℕ)
      (row : List (Option ℚ)),
      rowForDoy df2 yt ps .weibull minYears leading trailing true d = .ok row →
      (∀ v ∈ row, v.isSome = true) →
      (row.filterMap id).Sorted (· ≤ ·) := by
  have hcond : (ps.any fun q => decide (q < 0) || decide (100 < q)) = false := by
    rw [List.any_eq_false]
    intro q hq
    rcases hrange q hq with ⟨h1, h2⟩
    simp [not_lt.mpr h1, not_lt.mpr h2]
  have hnanRow : ∀ row : List (Option ℚ), row = nanRow ps →
      (∀ v ∈ row, v.isSome = true) → (row.filterMap id).Sorted (· ≤ ·) := by
    intro row hrow hv
    have hempty : row = [] := by
      cases hps0 : ps with
      | nil =>
        rw [hrow, hps0]
        rfl
      | cons q qs =>
        exfalso
        have hmem : (none : Option ℚ) ∈ row := by
          rw [hrow, hps0]
          exact List.mem_cons_self _ _
        have hcontra := hv none hmem
        simp at hcontra
    rw [hempty]
    exact List.sorted_nil
  have hestim : ∀ data : List (Option ℚ), data.filterMap id ≠ [] →
      calculate_fixed_percentile_thresholds data ps .weibull true =
        .ok (ps.map fun q => some (npQuantile .weibull (data.filterMap id) q)) := by
    intro data hne
    unfold calculate_fixed_percentile_thresholds
    rw [hcond]
    rw [if_neg (by simp), if_pos rfl, if_neg (by simpa using hne)]
  refine ⟨fun data hne => ⟨hestim data hne, quantile_row_sorted _ _ _ hps⟩, ?_⟩
  intro df2 yt minYears leading trailing d row hrow hv
  unfold rowForDoy at hrow
  by_cases hgate : minYears ≤ (calculate_metadata
      (filter_data_by_time df2 yt d leading trailing true)).n_years
  · rw [if_pos hgate] at hrow
    by_cases hclean :
        ((filter_data_by_time df2 yt d leading trailing true).map fun e => e.2).filterMap
          id = []
    · -- the sample is all-missing: the nanpercentile path emits the NaN row
      unfold calculate_fixed_percentile_thresholds at hrow
      rw [hcond] at hrow
      rw [if_neg (by simp), if_pos rfl, if_pos (by simpa using hclean)] at hrow
      have hrow2 : row = nanRow ps := by
        simpa using hrow.symm
      exact hnanRow row hrow2 hv
    · rw [hestim _ hclean] at hrow
      have hrow2 : row = ps.map fun q => some (npQuantile .weibull
          (((filter_data_by_time df2 yt d leading trailing true).map fun e =>
            e.2).filterMap id) q) := by
        simpa using hrow.symm
      rw [hrow2]
      have hfm : ((ps.map fun q => some (npQuantile .weibull
          (((filter_data_by_time df2 yt d leading trailing true).map fun e =>
            e.2).filterMap id) q)).filterMap id) =
          ps.map fun q => npQuantile .weibull
            (((filter_data_by_time df2 yt d leading trailing true).map fun e =>
              e.2).filterMap id) q := by
        simp only [List.filterMap_map, Function.comp]
        exact congrFun (List.filterMap_eq_map _) ps
      rw [hfm]
      exact quantile_row_sorted _ _ _ hps
  · rw [if_neg hgate] at hrow
    have hrow2 : row = nanRow ps := by
      simpa using hrow.symm
    exact hnanRow row hrow2 hv

/-- C6 witness: the three-point sample `[1, 3, 2]` at ranks
`[0, 50, 100]` produces the sorted threshold row. -/
theorem thresholds_monotone_witness :
    calculate_fixed_percentile_thresholds [some 1, some 3, some 2] [0, 50, 100] .weibull
        true =
        .ok ([0, 50, 100].map fun q =>
          some (npQuantile .weibull ([some 1, some 3, some 2].filterMap id) q)) ∧
      ([0, 50, 100].map fun q =>
        npQuantile .weibull ([some 1, some 3, some 2].filterMap id) q).Sorted (· ≤ ·) :=
  (thresholds_monotone [0, 50, 100] (by decide) (by norm_num)).1
    [some 1, some 3, some 2] (by decide)

/-- C3 amended witness: the row pairing values `[10, 20, 40]` with ranks
`[0, 50, 100]`: an input below clamps to rank 0, above to rank 100, and
30 inside the segment `[20, 40]` interpolates to 75. -/
theorem percentile_from_value_interp_witness :
    calculate_percentile_from_value 5 ⟨[0, 50, 100], [10, 20, 40]⟩ = 0 ∧
      calculate_percentile_from_value 50 ⟨[0, 50, 100], [10, 20, 40]⟩ = 100 ∧
      calculate_percentile_from_value 30 ⟨[0, 50, 100], [10, 20, 40]⟩ = 75 := by
  refine ⟨?_, ?_, ?_⟩
  · have h1 := (percentile_from_value_interp ⟨[0, 50, 100], [10, 20, 40]⟩ 5
      (by decide) (by decide)).1 (by decide) (by decide)
    exact h1.trans (by decide)
  · have h2 := (percentile_from_value_interp ⟨[0, 50, 100], [10, 20, 40]⟩ 50
      (by decide) (by decide)).2.1 (by decide) (by decide)
    exact h2.trans (by decide)
  · have h3 := (percentile_from_value_interp ⟨[0, 50, 100], [10, 20, 40]⟩ 30
      (by decide) (by decide)).2.2 1 (by decide) (by decide) (by decide)
    exact h3.trans (by norm_num [List.getD])
